import Mathlib

set_option autoImplicit false

namespace Signac

/-!
Shallow embedding of the `signac` persistence layer
(`signac/core/jsoncollection.py` and the document-store engine exercised by
`tests/test_collection.py` / `tests/test_jsondict.py`).

JSON values are modelled by the inductive `JSONVal`; Python's `json.dumps`
and `json.loads` are embedded as `dumps` / `loads` over these values
(compact arbitrary-precision integers stand in for JSON numbers; floating
point is out of scope for every claim considered here).
-/

/-- A JSON value, as produced by `json.loads`: `null`, booleans, (integer)
numbers, strings, arrays and objects (objects keep field order, as Python
dicts do). -/
inductive JSONVal where
  | null
  | bool (b : Bool)
  | num (n : Int)
  | str (s : String)
  | arr (elems : List JSONVal)
  | obj (fields : List (String × JSONVal))

mutual

/-- Decidable structural equality of JSON values (Python's `==` on parsed
JSON data). -/
def JSONVal.decEq : (a b : JSONVal) → Decidable (a = b)
  | .null, .null => isTrue rfl
  | .bool a, .bool b =>
    if h : a = b then isTrue (by rw [h]) else isFalse fun hh => h (by injection hh)
  | .num a, .num b =>
    if h : a = b then isTrue (by rw [h]) else isFalse fun hh => h (by injection hh)
  | .str a, .str b =>
    if h : a = b then isTrue (by rw [h]) else isFalse fun hh => h (by injection hh)
  | .arr as, .arr bs =>
    match decEqList as bs with
    | isTrue h => isTrue (by rw [h])
    | isFalse h => isFalse fun hh => h (by injection hh)
  | .obj as, .obj bs =>
    match decEqObj as bs with
    | isTrue h => isTrue (by rw [h])
    | isFalse h => isFalse fun hh => h (by injection hh)
  | .null, .bool _ | .null, .num _ | .null, .str _ | .null, .arr _ | .null, .obj _
  | .bool _, .null | .bool _, .num _ | .bool _, .str _ | .bool _, .arr _ | .bool _, .obj _
  | .num _, .null | .num _, .bool _ | .num _, .str _ | .num _, .arr _ | .num _, .obj _
  | .str _, .null | .str _, .bool _ | .str _, .num _ | .str _, .arr _ | .str _, .obj _
  | .arr _, .null | .arr _, .bool _ | .arr _, .num _ | .arr _, .str _ | .arr _, .obj _
  | .obj _, .null | .obj _, .bool _ | .obj _, .num _ | .obj _, .str _ | .obj _, .arr _ =>
    isFalse fun hh => by injection hh

def decEqList : (as bs : List JSONVal) → Decidable (as = bs)
  | [], [] => isTrue rfl
  | a :: as, b :: bs =>
    match JSONVal.decEq a b, decEqList as bs with
    | isTrue h1, isTrue h2 => isTrue (by rw [h1, h2])
    | isFalse h1, _ => isFalse fun hh => h1 (by injection hh)
    | _, isFalse h2 => isFalse fun hh => h2 (by injection hh)
  | [], _ :: _ => isFalse fun hh => by injection hh
  | _ :: _, [] => isFalse fun hh => by injection hh

def decEqObj : (as bs : List (String × JSONVal)) → Decidable (as = bs)
  | [], [] => isTrue rfl
  | (k, a) :: as, (l, b) :: bs =>
    if hk : k = l then
      match JSONVal.decEq a b, decEqObj as bs with
      | isTrue h1, isTrue h2 => isTrue (by rw [hk, h1, h2])
      | isFalse h1, _ => isFalse fun hh => by
          injection hh with h3 h4
          exact h1 (congrArg Prod.snd h3)
      | _, isFalse h2 => isFalse fun hh => by
          injection hh with h3 h4
          exact h2 h4
    else
      isFalse fun hh => by
        injection hh with h3 h4
        exact hk (congrArg Prod.fst h3)
  | [], _ :: _ => isFalse fun hh => by injection hh
  | _ :: _, [] => isFalse fun hh => by injection hh

end

instance : DecidableEq JSONVal := JSONVal.decEq

/-! ### The JSON codec (`json.dumps` / `json.loads`) -/

def lbrace : Char := Char.ofNat 123

def rbrace : Char := Char.ofNat 125

/-- Escape one character of a JSON string literal (the two escapes the
development needs; `json.dumps` additionally escapes control characters). -/
def escapeChar (c : Char) : String :=
  if c = '"' then "\\\""
  else if c = '\\' then "\\\\"
  else String.singleton c

def escapeString (s : String) : String :=
  String.join (s.data.map escapeChar)

mutual

/-- `json.dumps` with its default separators `", "` and `": "`. -/
def dumps : JSONVal → String
  | .null => "null"
  | .bool true => "true"
  | .bool false => "false"
  | .num n => toString n
  | .str s => "\"" ++ escapeString s ++ "\""
  | .arr xs => "[" ++ dumpsList xs ++ "]"
  | .obj fs => String.singleton lbrace ++ dumpsObj fs ++ String.singleton rbrace

def dumpsList : List JSONVal → String
  | [] => ""
  | [x] => dumps x
  | x :: y :: xs => dumps x ++ ", " ++ dumpsList (y :: xs)

def dumpsObj : List (String × JSONVal) → String
  | [] => ""
  | [(k, v)] => "\"" ++ escapeString k ++ "\": " ++ dumps v
  | (k, v) :: f :: fs =>
      "\"" ++ escapeString k ++ "\": " ++ dumps v ++ ", " ++ dumpsObj (f :: fs)

end

def isWs (c : Char) : Bool := c = ' ' || c = '\n' || c = '\t' || c = '\r'

def skipWs : List Char → List Char
  | [] => []
  | c :: cs => if isWs c then skipWs cs else c :: cs

/-- Parse the body of a JSON string literal, after its opening quote. -/
def parseStr : List Char → Option (String × List Char)
  | [] => none
  | c :: cs =>
    if c = '"' then some ("", cs)
    else if c = '\\' then
      match cs with
      | [] => none
      | d :: ds =>
        match parseStr ds with
        | none => none
        | some (s, r) =>
          let u : Char := if d = 'n' then '\n' else if d = 't' then '\t' else d
          some (String.singleton u ++ s, r)
    else
      match parseStr cs with
      | none => none
      | some (s, r) => some (String.singleton c ++ s, r)

def digitsToNat (ds : List Char) : Nat :=
  ds.foldl (fun a c => a * 10 + (c.toNat - 48)) 0

/-- Parse a JSON integer (floating point is outside the model's scope). -/
def parseNum (cs : List Char) : Option (Int × List Char) :=
  match cs with
  | '-' :: rest =>
      let p := rest.span Char.isDigit
      if p.1.isEmpty then none else some (-(digitsToNat p.1 : Int), p.2)
  | _ =>
      let p := cs.span Char.isDigit
      if p.1.isEmpty then none else some ((digitsToNat p.1 : Int), p.2)

mutual

/-- Fuel-indexed recursive-descent parser: the core of `json.loads`. -/
def parseVal : Nat → List Char → Option (JSONVal × List Char)
  | 0, _ => none
  | Nat.succ fuel, cs =>
    match skipWs cs with
    | 'n' :: 'u' :: 'l' :: 'l' :: r => some (.null, r)
    | 't' :: 'r' :: 'u' :: 'e' :: r => some (.bool true, r)
    | 'f' :: 'a' :: 'l' :: 's' :: 'e' :: r => some (.bool false, r)
    | '"' :: r => (parseStr r).map (fun p => (.str p.1, p.2))
    | '[' :: r =>
      (match skipWs r with
       | ']' :: r2 => some (.arr [], r2)
       | r2 => (parseItems fuel r2).map (fun p => (.arr p.1, p.2)))
    | c :: r =>
      if c = lbrace then
        match skipWs r with
        | d :: r2 =>
          if d = rbrace then some (.obj [], r2)
          else (parseFields fuel (d :: r2)).map (fun p => (.obj p.1, p.2))
        | [] => none
      else (parseNum (c :: r)).map (fun p => (.num p.1, p.2))
    | [] => none

/-- Parse the comma-separated items of a JSON array, up to the closing
bracket. -/
def parseItems : Nat → List Char → Option (List JSONVal × List Char)
  | 0, _ => none
  | Nat.succ fuel, cs =>
    match parseVal fuel cs with
    | none => none
    | some (v, r) =>
      match skipWs r with
      | ',' :: r2 => (parseItems fuel r2).map (fun p => (v :: p.1, p.2))
      | ']' :: r2 => some ([v], r2)
      | _ => none

/-- Parse the comma-separated fields of a JSON object, up to the closing
brace. -/
def parseFields : Nat → List Char → Option (List (String × JSONVal) × List Char)
  | 0, _ => none
  | Nat.succ fuel, cs =>
    match skipWs cs with
    | '"' :: r =>
      match parseStr r with
      | none => none
      | some (k, r2) =>
        match skipWs r2 with
        | ':' :: r3 =>
          match parseVal fuel r3 with
          | none => none
          | some (v, r4) =>
            match skipWs r4 with
            | ',' :: r5 => (parseFields fuel r5).map (fun p => ((k, v) :: p.1, p.2))
            | c :: r5 => if c = rbrace then some ([(k, v)], r5) else none
            | [] => none
        | _ => none
    | _ => none

end

/-- `json.loads`: parse a complete JSON document (trailing whitespace
allowed, trailing garbage rejected). -/
def loads (s : String) : Option JSONVal :=
  match parseVal (s.length + 1) s.data with
  | some (v, r) => if (skipWs r).isEmpty then some v else none
  | none => none

/-! ### String-keyed association lists (files, caches, buffers) -/

def alookup {α : Type} : List (String × α) → String → Option α
  | [], _ => none
  | (q, v) :: rest, k => if q = k then some v else alookup rest k

def aremove {α : Type} : List (String × α) → String → List (String × α)
  | [], _ => []
  | (q, v) :: rest, k => if q = k then aremove rest k else (q, v) :: aremove rest k

def aset {α : Type} (m : List (String × α)) (k : String) (v : α) : List (String × α) :=
  (k, v) :: aremove m k

/-! ### The file-system model -/

/-- One on-disk file: its byte content and its modification time.  The
metadata fingerprint `(size, mtime)` is derived from it. -/
structure FileData where
  content : String
  mtime : Nat
  deriving DecidableEq

/-- The file system: a finite map from (canonical) path to file data. -/
abbrev FS := List (String × FileData)

/-- The primitive file-system steps `JSONCollection._sync` performs.
`write p c` models `open(p, 'wb'); file.write(c)`: truncate, then write the
bytes front to back — not atomic.  `replace src dst` models `os.replace`:
an atomic rename over the destination. -/
inductive FsOp where
  | write (path : String) (content : String)
  | replace (src dst : String)

def applyOp (now : Nat) (fs : FS) : FsOp → FS
  | .write p c => aset fs p ⟨c, now⟩
  | .replace src dst =>
    match alookup fs src with
    | some f => aset (aremove fs src) dst f
    | none => fs

def runOps (now : Nat) (fs : FS) : List FsOp → FS
  | [] => fs
  | op :: ops => runOps (now + 1) (applyOp now fs op) ops

/-- Every file-system state observable while one operation executes: a
non-atomic `write` exposes every prefix of the new content (including the
empty file left by the truncating open); an atomic `replace` exposes only
its final state. -/
def opStates (now : Nat) (fs : FS) : FsOp → List FS
  | .write p c =>
      (List.range (c.length + 1)).map fun k => aset fs p ⟨⟨c.data.take k⟩, now⟩
  | .replace src dst => [applyOp now fs (.replace src dst)]

/-- Every state the file system passes through while a list of operations
executes (the state before the first operation excluded). -/
def traceStates (now : Nat) (fs : FS) : List FsOp → List FS
  | [] => []
  | op :: ops => opStates now fs op ++ traceStates (now + 1) (applyOp now fs op) ops

/-! ### Path manipulation (`os.path.split` / `os.path.join`)

`dirname` keeps its trailing separator, so that the composition
`os.path.join(os.path.split(p)[0], name)` performed by `_sync` is plain
concatenation `dirname p ++ name`, and `dirname p ++ basename p = p`. -/

def basename (p : String) : String :=
  ⟨(p.data.reverse.takeWhile (fun c => c != '/')).reverse⟩

def dirname (p : String) : String :=
  ⟨(p.data.reverse.dropWhile (fun c => c != '/')).reverse⟩

/-! ### `JSONCollection` (signac/core/jsoncollection.py) -/

/-- The error kinds of the embedded operations (spec §7 names; the concrete
Python exception each corresponds to is noted where it is raised). -/
inductive Err where
  | invalidArgument       -- ValueError from `__init__`
  | invalidKeyType        -- TypeError
  | invalidAssignment     -- ValueError on a conflicting `_id` assignment
  | missingKey            -- KeyError
  | duplicateIdentifier   -- DuplicateKeyError
  | disallowedOperation   -- io.UnsupportedOperation
  | notReady              -- RuntimeError
  | resourceUnavailable   -- a re-raised IOError
  deriving DecidableEq

namespace JSONCollection

/-- The backend keyword arguments `__init__` records
(`_backend_kwargs['filename']`, `_backend_kwargs['write_concern']`). -/
structure BackendKwargs where
  filename : String
  write_concern : Bool
  deriving DecidableEq

/-- The file-system steps of `JSONCollection._sync` for the serialized blob:
with `write_concern`, write a freshly-named dummy file located next to the
target and atomically replace the target with it; otherwise overwrite the
target in place.  `uid` stands for the random `uuid.uuid4()` component of
the dummy file's name. -/
def tmpName (filename uid : String) : String :=
  dirname filename ++ "._" ++ uid ++ "_" ++ basename filename

def syncOps (kw : BackendKwargs) (blob : String) (uid : String) : List FsOp :=
  if kw.write_concern then
    [.write (tmpName kw.filename uid) blob, .replace (tmpName kw.filename uid) kw.filename]
  else
    [.write kw.filename blob]

/-- `JSONCollection._sync`: serialize `data` with `json.dumps` and write it
out, returning the final file system. -/
def sync (kw : BackendKwargs) (data : JSONVal) (uid : String) (now : Nat) (fs : FS) : FS :=
  runOps now fs (syncOps kw (dumps data) uid)

/-- `_get_filemetadata`: the size-plus-modification-time fingerprint used
for staleness detection (`none` when the file does not exist). -/
def getMetadata (fs : FS) (p : String) : Option (Nat × Nat) :=
  (alookup fs p).map fun f => (f.content.length, f.mtime)

/-- `JSONCollection._sync_from_buffer`: flush one buffered entry.  Returns
`none` when the Python code would raise (cache miss, JSON decode error),
otherwise `some (ok, fs')` with the boolean outcome and the resulting file
system.  The store path deserializes the cached blob and pushes it through
`from_base(...)._sync()`. -/
def syncFromBufferStore (id : String) (kw : BackendKwargs) (cache : List (String × String))
    (uid : String) (now : Nat) (fs : FS) : Option (Bool × FS) :=
  match alookup cache id with
  | none => none
  | some blob =>
    match loads blob with
    | none => none
    | some data => some (true, sync kw data uid now fs)

def syncFromBuffer (id : String) (kw : BackendKwargs) (cache : List (String × String))
    (metadata : Option (Nat × Nat)) (uid : String) (now : Nat) (fs : FS) :
    Option (Bool × FS) :=
  match metadata with
  | some m =>
    if some m ≠ getMetadata fs id then some (false, fs)
    else syncFromBufferStore id kw cache uid now fs
  | none => syncFromBufferStore id kw cache uid now fs

/-- Modelled from the spec: `buffered_collection.py` is not in the sources.
A pending write-buffer entry as `_store_in_buffer` records it — the backend
keyword arguments plus the metadata observed at stage time; the serialized
snapshot itself lives in the cache under the same resource id (§3 "Buffer
Entry", `JSONCollection._write_to_buffer`). -/
structure BufferEntry where
  kwargs : BackendKwargs
  metadata : Option (Nat × Nat)
  deriving DecidableEq

/-- Modelled from the spec: the flushing driver of `buffered_collection.py`
is not in the sources.  §4.3 `flush_one`: with no pending entry the flush
trivially succeeds; otherwise the entry is removed from the buffer in
either outcome and `_sync_from_buffer` decides — by re-probing the
metadata — whether the buffered snapshot is written. -/
def flushOne (buffer : List (String × BufferEntry)) (cache : List (String × String))
    (id : String) (uid : String) (now : Nat) (fs : FS) :
    Option (Bool × List (String × BufferEntry) × FS) :=
  match alookup buffer id with
  | none => some (true, buffer, fs)
  | some e =>
    (syncFromBuffer id e.kwargs cache e.metadata uid now fs).map
      fun r => (r.1, aremove buffer id, r.2)

/-- The result of `open(self._filename, 'rb'); file.read()`: the file's
bytes, or the `IOError` (with its errno) the attempt raised. -/
inductive OpenResult where
  | ok (blob : String)
  | ioError (errno : Nat)
  deriving DecidableEq

def ENOENT : Nat := 2

def EACCES : Nat := 13

/-- Outcome of a Python call: a value, or a raised exception. -/
inductive PyResult (α : Type) where
  | ret (a : α)
  | raised (e : Err)
  deriving DecidableEq

/-- `JSONCollection._load`, exactly as written: on a successful open, parse
the blob; on an `IOError` whose errno is `ENOENT`, return `None`.  For any
other `IOError` the `except` block ends without re-raising, so control
falls off the end of the method and every `IOError` yields `None`. -/
def load (r : OpenResult) : PyResult (Option JSONVal) :=
  match r with
  | .ok blob =>
    match loads blob with
    | some v => .ret (some v)
    | none => .raised .invalidArgument  -- json.JSONDecodeError (a ValueError) propagates
  | .ioError e =>
    if e = ENOENT then .ret none
    else .ret none

/-- The node state `JSONCollection.__init__` establishes. -/
structure Node where
  filename : Option String
  parent : Option Unit
  write_concern : Bool
  data : Option JSONVal
  deriving DecidableEq

/-- `JSONCollection.__init__`: record the (canonical) filename, enforce
that exactly one of `filename` and `parent` is given — otherwise raise
`ValueError` — and, when initial `data` is present, call `self.sync()`
right away.  The returned boolean records whether `sync` ran during
construction.  (`os.path.realpath` is the identity on the canonical paths
of this development.) -/
def init (filename : Option String) (parent : Option Unit) (data : Option JSONVal)
    (write_concern : Bool) : Except Err (Node × Bool) :=
  if filename.isNone = parent.isNone then .error .invalidArgument
  else .ok (⟨filename, parent, write_concern, data⟩, data.isSome)

end JSONCollection

namespace SyncedCollection

/-! ### Per-root child-instance cache (Synced Node nesting) -/

/-- Modelled from the spec: `synced_collection.py` is not in the sources.
The per-root cache of materialized child nodes (§3 "Synced Node", §4.2
nested-access materialization): reading a nested path returns the instance
cached for that path, inserting a fresh instance on a miss; reloading the
root invalidates the whole cache.  Live instances are identified by an
allocation counter — equal identifiers mean the identical object. -/
structure RootCache where
  cache : List (String × Nat)
  nextId : Nat
  deriving DecidableEq

/-- Materialize the child node at `path`: the cached instance if present,
a freshly allocated one (recorded in the cache) otherwise. -/
def accessChild (r : RootCache) (path : String) : Nat × RootCache :=
  match alookup r.cache path with
  | some i => (i, r)
  | none => (r.nextId, ⟨aset r.cache path r.nextId, r.nextId + 1⟩)

/-- Reloading the root drops every cached child instance. -/
def reloadRoot (r : RootCache) : RootCache := ⟨[], r.nextId⟩

/-- The operations that can touch the per-root cache between two reads. -/
inductive NodeOp where
  | access (path : String)
  | reload
  deriving DecidableEq

def applyNodeOp (r : RootCache) : NodeOp → RootCache
  | .access p => (accessChild r p).2
  | .reload => reloadRoot r

def applyNodeOps (r : RootCache) (ops : List NodeOp) : RootCache :=
  ops.foldl applyNodeOp r

end SyncedCollection

namespace Collection

/-! ### The document store (`Collection`)

The `Collection` engine itself is not in the sources — only its tests
(`tests/test_collection.py`) are — so the whole component is modelled from
the spec (§3, §4.5, §7). -/

/-- Modelled from the spec: a document body is a mapping from field names
to JSON values; a store keeps documents keyed by their string primary
key. -/
abbrev DocBody := List (String × JSONVal)

/-- Python's `key.split('.')` over the key's characters. -/
def splitDottedChars : List Char → List String
  | [] => [""]
  | c :: cs =>
    if c = '.' then "" :: splitDottedChars cs
    else
      match splitDottedChars cs with
      | s :: rest => (String.singleton c ++ s) :: rest
      | [] => [String.singleton c]

/-- Modelled from the spec (§4.5 `find`): split a dotted filter key into
its path components. -/
def splitDotted (k : String) : List String := splitDottedChars k.data

/-- Modelled from the spec (§4.5): resolve a field path in a document by
walking nested objects. -/
def resolvePath : JSONVal → List String → Option JSONVal
  | v, [] => some v
  | .obj fields, k :: rest =>
    (match alookup fields k with
     | some v => resolvePath v rest
     | none => none)
  | _, _ :: _ => none

mutual

/-- Modelled from the spec (§4.5 `find`): flatten one filter value at a
path — a nested-mapping value unfolds into the dotted paths beneath it, so
dotted-path keys and nested-mapping keys normalize identically. -/
def flattenKV (path : List String) : JSONVal → List (List String × JSONVal)
  | .obj fields => flattenFields path fields
  | .null => [(path, .null)]
  | .bool b => [(path, .bool b)]
  | .num n => [(path, .num n)]
  | .str s => [(path, .str s)]
  | .arr xs => [(path, .arr xs)]

def flattenFields (path : List String) : List (String × JSONVal) →
    List (List String × JSONVal)
  | [] => []
  | (k, v) :: rest => flattenKV (path ++ splitDotted k) v ++ flattenFields path rest

end

/-- Modelled from the spec (§4.5): a document matches a filter when every
flattened `(path, value)` pair resolves in the document to exactly that
value.  (Sequence-kind normalization is the identity here: the model has a
single ordered-sequence type.) -/
def matchesFilter (doc : JSONVal) (filter : List (String × JSONVal)) : Bool :=
  (flattenFields [] filter).all fun pv =>
    match resolvePath doc pv.1 with
    | some v => decide (v = pv.2)
    | none => false

/-- Modelled from the spec (§3, §4.5): the store state — documents in
insertion order plus the currently valid secondary indexes, each mapping a
field value to the ids holding it. -/
structure Store where
  docs : List (String × DocBody)
  indexes : List (String × List (JSONVal × List String))
  deriving DecidableEq

/-- Modelled from the spec (§4.5 `find`): the matching documents, in store
order. -/
def find (c : Store) (filter : List (String × JSONVal)) : List (String × DocBody) :=
  c.docs.filter fun d => matchesFilter (.obj d.2) filter

/-- Record `id` under value `v` in a secondary index. -/
def indexAdd (idx : List (JSONVal × List String)) (v : JSONVal) (id : String) :
    List (JSONVal × List String) :=
  match idx with
  | [] => [(v, [id])]
  | (w, ids) :: rest =>
    if w = v then (w, ids ++ [id]) :: rest else (w, ids) :: indexAdd rest v id

/-- The ids a secondary index records for value `v`. -/
def idsFor (idx : List (JSONVal × List String)) (v : JSONVal) : List String :=
  match idx with
  | [] => []
  | (w, ids) :: rest => if w = v then ids else idsFor rest v

/-- Modelled from the spec (§4.5 `index`): scan the documents, grouping ids
by the value found at `field` (documents lacking the field are skipped). -/
def buildIndexFrom (field : String) :
    List (JSONVal × List String) → List (String × DocBody) →
    List (JSONVal × List String)
  | idx, [] => idx
  | idx, (id, body) :: rest =>
    match resolvePath (.obj body) (splitDotted field) with
    | some v => buildIndexFrom field (indexAdd idx v id) rest
    | none => buildIndexFrom field idx rest

def buildIndex (field : String) (docs : List (String × DocBody)) :
    List (JSONVal × List String) :=
  buildIndexFrom field [] docs

/-- Modelled from the spec (§4.5 `index`): return the validated index for
`field` if one exists; fail with `MissingKey` when absent and `build` is
false; when `build` is true construct it by a full scan and record it. -/
def index (c : Store) (field : String) (build : Bool) :
    Except Err (List (JSONVal × List String) × Store) :=
  match alookup c.indexes field with
  | some idx => .ok (idx, c)
  | none =>
    if build then
      .ok (buildIndex field c.docs,
        ⟨c.docs, aset c.indexes field (buildIndex field c.docs)⟩)
    else .error .missingKey

/-- Modelled from the spec (§4.5): the first document matching `filter`. -/
def findOneId (c : Store) (filter : List (String × JSONVal)) : Option String :=
  (find c filter).head?.map fun d => d.1

/-- Modelled from the spec (§3, §4.5): the mutating store operations.  Each
drops every built secondary index.  `none` means the operation raised
(duplicate id on insert) and left the store untouched. -/
inductive Mutation where
  | ins (id : String) (body : DocBody)
  | del (filter : List (String × JSONVal))
  | repl (filter : List (String × JSONVal)) (body : DocBody)

def applyMutation (c : Store) : Mutation → Option Store
  | .ins id body =>
    if (alookup c.docs id).isSome then none   -- DuplicateIdentifier
    else some ⟨c.docs ++ [(id, body)], []⟩
  | .del filter =>
    (match findOneId c filter with
     | some id => some ⟨aremove c.docs id, []⟩
     | none => some ⟨c.docs, []⟩)             -- removing zero documents is not an error
  | .repl filter body =>
    (match findOneId c filter with
     | some id => some ⟨aset c.docs id body, []⟩
     | none => some ⟨c.docs, []⟩)             -- no match: nothing replaced

/-! ### File-backed mode (`Collection.open`) -/

/-- The open modes of a file-backed store handle (§4.5, §6). -/
inductive Mode where
  | read | write | append
  deriving DecidableEq

/-- Modelled from the spec: a file-backed handle — its mode, the in-memory
record set, whether an unpersisted in-memory mutation happened, and the
record set last persisted to the file (§4.5 file-backed mode,
`FileCollectionTestReadOnly`). -/
structure FileHandle where
  mode : Mode
  store : Store
  dirty : Bool
  persisted : List (String × DocBody)
  deriving DecidableEq

/-- Modelled from the spec (§4.5): `insert_one` applies to the in-memory
record set in every mode (also under a read-only handle) and marks the
handle dirty; the persisted file is not touched. -/
def hInsertOne (h : FileHandle) (id : String) (body : DocBody) : Except Err FileHandle :=
  if (alookup h.store.docs id).isSome then .error .duplicateIdentifier
  else .ok ⟨h.mode, ⟨h.store.docs ++ [(id, body)], []⟩, true, h.persisted⟩

/-- Modelled from the spec (§4.5, §7): a query on a read-mode handle that
an unpersisted mutation left inconsistent fails with `NotReady`. -/
def hFind (h : FileHandle) (filter : List (String × JSONVal)) :
    Except Err (List (String × DocBody)) :=
  if h.mode = .read ∧ h.dirty then .error .notReady
  else .ok (find h.store filter)

/-- Modelled from the spec (§4.5, §7): `flush` durably rewrites the full
record set — unless the handle was opened without write permission, in
which case it fails with `DisallowedOperation`. -/
def hFlush (h : FileHandle) : Except Err FileHandle :=
  if h.mode = .read then .error .disallowedOperation
  else .ok ⟨h.mode, h.store, false, h.store.docs⟩

/-- Modelled from the spec (§4.5): `close` flushes where permitted, so on a
read-mode handle it fails with `DisallowedOperation` like `flush`. -/
def hClose (h : FileHandle) : Except Err FileHandle :=
  if h.mode = .read then .error .disallowedOperation
  else .ok ⟨h.mode, h.store, false, h.store.docs⟩

end Collection

/-! ## Theorems -/

theorem alookup_aremove {α : Type} (m : List (String × α)) (p q : String) :
    alookup (aremove m p) q = if q = p then none else alookup m q := by
  induction m with
  | nil => simp [alookup, aremove]
  | cons kv rest ih =>
    obtain ⟨k, v⟩ := kv
    by_cases hkp : k = p
    · subst hkp
      rw [show aremove ((k, v) :: rest) k = aremove rest k from by simp [aremove], ih]
      by_cases hq : q = k
      · simp [hq]
      · simp [alookup, hq, Ne.symm hq]
    · rw [show aremove ((k, v) :: rest) p = (k, v) :: aremove rest p from by
        simp [aremove, hkp]]
      by_cases hkq : k = q
      · subst hkq
        simp [alookup, hkp]
      · simp [alookup, hkq, ih]

theorem alookup_aset {α : Type} (m : List (String × α)) (p : String) (v : α) (q : String) :
    alookup (aset m p v) q = if q = p then some v else alookup m q := by
  by_cases hq : q = p
  · subst hq
    simp [aset, alookup]
  · simp [aset, alookup, Ne.symm hq, hq, alookup_aremove]

theorem strExt (s t : String) (h : s.data = t.data) : s = t := by
  cases s; cases t; exact congrArg String.mk h

theorem data_append (s t : String) : (s ++ t).data = s.data ++ t.data := rfl

theorem dirname_append_basename (p : String) : dirname p ++ basename p = p := by
  apply strExt
  rw [data_append]
  show (p.data.reverse.dropWhile _).reverse ++ (p.data.reverse.takeWhile _).reverse = p.data
  rw [← List.reverse_append, List.takeWhile_append_dropWhile, List.reverse_reverse]

theorem length_append_str (s t : String) : (s ++ t).length = s.length + t.length := by
  show (s ++ t).data.length = s.data.length + t.data.length
  rw [data_append, List.length_append]

theorem no_sep_basename (p : String) : ∀ c ∈ (basename p).data, (c != '/') = true := by
  intro c hc
  have hm : c ∈ p.data.reverse.takeWhile (fun c => c != '/') := by
    have : (basename p).data = (p.data.reverse.takeWhile (fun c => c != '/')).reverse := rfl
    rw [this, List.mem_reverse] at hc
    exact hc
  have h2 := List.mem_takeWhile_imp hm
  exact h2

theorem dropWhile_self_idem {α : Type} (q : α → Bool) (l : List α) :
    List.dropWhile q (List.dropWhile q l) = List.dropWhile q l := by
  induction l with
  | nil => simp
  | cons c cs ih =>
    by_cases hc : q c = true
    · simp [List.dropWhile_cons, hc, ih]
    · simp [List.dropWhile_cons, hc]

theorem dropWhile_append_all {α : Type} (q : α → Bool) (xs ys : List α)
    (h : ∀ c ∈ xs, q c = true) :
    List.dropWhile q (xs ++ ys) = List.dropWhile q ys := by
  induction xs with
  | nil => simp
  | cons c cs ih =>
    simp only [List.cons_append, List.dropWhile_cons, h c (by simp)]
    exact ih fun c hc => h c (by simp [hc])

/-- Appending a separator-free name to a `dirname` stays in that
directory. -/
theorem dirname_append_no_sep (p : String) (name : String)
    (h : ∀ c ∈ name.data, (c != '/') = true) :
    dirname (dirname p ++ name) = dirname p := by
  apply strExt
  show (((dirname p ++ name).data.reverse.dropWhile _)).reverse
      = (p.data.reverse.dropWhile _).reverse
  rw [data_append]
  show ((((p.data.reverse.dropWhile (fun c => c != '/')).reverse
      ++ name.data).reverse.dropWhile _)).reverse = _
  rw [List.reverse_append, List.reverse_reverse]
  rw [dropWhile_append_all _ _ _ (fun c hc => h c (List.mem_reverse.mp hc))]
  rw [dropWhile_self_idem]

namespace JSONCollection

theorem tmpName_ne (filename uid : String) : tmpName filename uid ≠ filename := by
  intro h
  have hl := congrArg String.length h
  rw [tmpName, length_append_str, length_append_str, length_append_str,
    length_append_str] at hl
  have hfn : filename.length = (dirname filename).length + (basename filename).length := by
    conv_lhs => rw [← dirname_append_basename filename]
    rw [length_append_str]
  have h2 : ("._" : String).length = 2 := rfl
  have h3 : ("_" : String).length = 1 := rfl
  omega

theorem no_sep_tmpBase (filename uid : String)
    (h : ∀ c ∈ uid.data, (c != '/') = true) :
    ∀ c ∈ ("._" ++ (uid ++ ("_" ++ basename filename))).data, (c != '/') = true := by
  intro c hc
  rw [data_append, data_append, data_append] at hc
  rcases List.mem_append.mp hc with h1 | h1
  · exact (by decide : ∀ x ∈ ("._" : String).data, (x != '/') = true) c h1
  rcases List.mem_append.mp h1 with h2 | h2
  · exact h c h2
  rcases List.mem_append.mp h2 with h3 | h3
  · exact (by decide : ∀ x ∈ ("_" : String).data, (x != '/') = true) c h3
  · exact no_sep_basename filename c h3

theorem tmpName_colocated (filename uid : String)
    (h : ∀ c ∈ uid.data, (c != '/') = true) :
    dirname (tmpName filename uid) = dirname filename := by
  have hassoc : tmpName filename uid
      = dirname filename ++ ("._" ++ (uid ++ ("_" ++ basename filename))) := by
    rw [tmpName, String.append_assoc, String.append_assoc, String.append_assoc]
  rw [hassoc]
  exact dirname_append_no_sep filename _ (no_sep_tmpBase filename uid h)

/-- The net effect of `_sync` on the file system: the target holds the
blob, stamped with the time of the write (an `os.replace` rename preserves
the renamed file's modification time). -/
theorem alookup_runOps_syncOps (kw : BackendKwargs) (blob uid : String) (now : Nat)
    (fs : FS) :
    alookup (runOps now fs (syncOps kw blob uid)) kw.filename = some ⟨blob, now⟩ := by
  by_cases h : kw.write_concern
  · rw [syncOps, if_pos h]
    simp only [runOps, applyOp, alookup_aset, if_pos rfl]
    simp [alookup_aset]
  · rw [syncOps, if_neg h]
    simp [runOps, applyOp, alookup_aset]

theorem alookup_sync (kw : BackendKwargs) (data : JSONVal) (uid : String) (now : Nat)
    (fs : FS) :
    alookup (sync kw data uid now fs) kw.filename = some ⟨dumps data, now⟩ :=
  alookup_runOps_syncOps kw (dumps data) uid now fs

/-- C2: storing with write concern enabled first writes the data completely
to a freshly-named temporary file in the target's directory and then
replaces the target by one atomic rename, so every observable intermediate
state of the target is either its prior content or the complete new blob —
never a partial write; with write concern disabled, the code overwrites the
target in place. -/
theorem sync_write_concern_atomic (filename blob uid : String) (now : Nat) (fs : FS) :
    syncOps ⟨filename, true⟩ blob uid
      = [.write (tmpName filename uid) blob,
         .replace (tmpName filename uid) filename]
    ∧ tmpName filename uid ≠ filename
    ∧ ((∀ c ∈ uid.data, (c != '/') = true) →
        dirname (tmpName filename uid) = dirname filename)
    ∧ (∀ st ∈ traceStates now fs (syncOps ⟨filename, true⟩ blob uid),
        alookup st filename = alookup fs filename
        ∨ alookup st filename = some ⟨blob, now⟩)
    ∧ alookup (runOps now fs (syncOps ⟨filename, true⟩ blob uid)) filename
        = some ⟨blob, now⟩
    ∧ syncOps ⟨filename, false⟩ blob uid = [.write filename blob] := by
  have hne := tmpName_ne filename uid
  refine ⟨rfl, hne, tmpName_colocated filename uid, ?_, ?_, rfl⟩
  · intro st hst
    simp only [syncOps, if_true, traceStates, opStates, applyOp, List.append_nil,
      List.mem_append, List.mem_map, List.mem_range, List.mem_singleton,
      alookup_aset, if_pos rfl] at hst
    rcases hst with ⟨k, _, rfl⟩ | rfl
    · left
      rw [alookup_aset, if_neg fun hc => hne hc.symm]
    · right
      rw [alookup_aset, if_pos rfl]
  · exact alookup_runOps_syncOps ⟨filename, true⟩ blob uid now fs

/-- Witness for C2 at a concrete input: target `/a/b`, temp name `/a/._u_b`,
and the observable state right after the truncating open of the temp file
leaves the target untouched. -/
theorem sync_write_concern_atomic_witness :
    (dirname (tmpName "/a/b" "u") = dirname "/a/b")
    ∧ (alookup (aset ([] : FS) (tmpName "/a/b" "u") ⟨"", 0⟩) "/a/b"
        = alookup ([] : FS) "/a/b"
      ∨ alookup (aset ([] : FS) (tmpName "/a/b" "u") ⟨"", 0⟩) "/a/b"
        = some ⟨"x", 0⟩) := by
  have h := sync_write_concern_atomic "/a/b" "x" "u" 0 []
  exact ⟨h.2.2.1 (by decide), h.2.2.2.1 _ (by decide)⟩

/-- C1: flushing a pending buffer entry re-probes the resource's metadata.
If the probe equals the metadata recorded at stage time, the buffered
snapshot is deserialized and written through the backend's store and the
flush returns success; if it differs, the entry is discarded, nothing is
written (the file system is returned untouched), and the flush returns the
failure outcome `false` rather than raising. -/
theorem flushOne_conflict_detection (buffer : List (String × BufferEntry))
    (cache : List (String × String)) (id : String) (e : BufferEntry) (m : Nat × Nat)
    (blob : String) (data : JSONVal) (uid : String) (now : Nat) (fs : FS)
    (hb : alookup buffer id = some e)
    (hm : e.metadata = some m)
    (hc : alookup cache id = some blob)
    (hd : loads blob = some data) :
    (some m = getMetadata fs id →
      flushOne buffer cache id uid now fs
        = some (true, aremove buffer id, sync e.kwargs data uid now fs)
      ∧ alookup (sync e.kwargs data uid now fs) e.kwargs.filename
          = some ⟨dumps data, now⟩)
    ∧ (some m ≠ getMetadata fs id →
      flushOne buffer cache id uid now fs = some (false, aremove buffer id, fs)) := by
  constructor
  · intro hmm
    have hni : ¬ some m ≠ getMetadata fs id := fun hh => hh hmm
    simp only [flushOne, hb, syncFromBuffer, hm, if_neg hni, syncFromBufferStore,
      hc, hd, Option.map]
    exact ⟨trivial, alookup_sync e.kwargs data uid now fs⟩
  · intro hne
    simp only [flushOne, hb, syncFromBuffer, hm, if_pos hne, Option.map]

/-- Witness for C1: one flush where the fresh probe matches the staged
metadata (and writes), one where the file was touched in between (and the
entry is dropped with no write). -/
theorem flushOne_conflict_detection_witness :
    (flushOne [("f", ⟨⟨"f", false⟩, some (4, 0)⟩)] [("f", "null")] "f" "u" 7
        [("f", ⟨"null", 0⟩)]
      = some (true, aremove [("f", ⟨⟨"f", false⟩, some (4, 0)⟩)] "f",
          sync ⟨"f", false⟩ .null "u" 7 [("f", ⟨"null", 0⟩)]))
    ∧ (flushOne [("f", ⟨⟨"f", false⟩, some (4, 0)⟩)] [("f", "null")] "f" "u" 7
        [("f", ⟨"null", 9⟩)]
      = some (false, aremove [("f", ⟨⟨"f", false⟩, some (4, 0)⟩)] "f",
          [("f", ⟨"null", 9⟩)])) :=
  ⟨((flushOne_conflict_detection [("f", ⟨⟨"f", false⟩, some (4, 0)⟩)] [("f", "null")]
      "f" ⟨⟨"f", false⟩, some (4, 0)⟩ (4, 0) "null" .null "u" 7 [("f", ⟨"null", 0⟩)]
      (by decide) rfl (by decide) (by decide)).1 (by decide)).1,
    (flushOne_conflict_detection [("f", ⟨⟨"f", false⟩, some (4, 0)⟩)] [("f", "null")]
      "f" ⟨⟨"f", false⟩, some (4, 0)⟩ (4, 0) "null" .null "u" 7 [("f", ⟨"null", 9⟩)]
      (by decide) rfl (by decide) (by decide)).2 (by decide)⟩

/-- C10: when a buffered entry is flushed with no recorded metadata
(`metadata = None`), the staleness comparison is skipped: the buffered
snapshot is deserialized and written unconditionally — whatever the current
state of the file system — and the flush reports success. -/
theorem syncFromBuffer_no_metadata (id : String) (kw : BackendKwargs)
    (cache : List (String × String)) (blob : String) (data : JSONVal) (uid : String)
    (now : Nat) (fs : FS)
    (hc : alookup cache id = some blob)
    (hd : loads blob = some data) :
    syncFromBuffer id kw cache none uid now fs = some (true, sync kw data uid now fs)
    ∧ alookup (sync kw data uid now fs) kw.filename = some ⟨dumps data, now⟩ := by
  simp only [syncFromBuffer, syncFromBufferStore, hc, hd]
  exact ⟨trivial, alookup_sync kw data uid now fs⟩

/-- Witness for C10: a flush with `metadata = none` writes even though the
resource changed arbitrarily since staging. -/
theorem syncFromBuffer_no_metadata_witness :
    syncFromBuffer "f" ⟨"f", false⟩ [("f", "true")] none "u" 3 [("f", ⟨"stale", 99⟩)]
      = some (true, sync ⟨"f", false⟩ (.bool true) "u" 3 [("f", ⟨"stale", 99⟩)]) :=
  (syncFromBuffer_no_metadata "f" ⟨"f", false⟩ [("f", "true")] "true" (.bool true)
    "u" 3 [("f", ⟨"stale", 99⟩)] (by decide) (by decide)).1

/-- C3 (code-bug evidence): `_load` checks `errno == ENOENT` but the
`except IOError` block never re-raises, so an `IOError` with any other
errno — e.g. `EACCES`, a permissions failure — also returns `None`, the
absent signal, instead of propagating a `ResourceUnavailable` error. -/
theorem load_swallows_every_ioerror :
    load (.ioError EACCES) = .ret none
    ∧ (∀ e : Nat, load (.ioError e) = .ret none) := by
  refine ⟨rfl, fun e => ?_⟩
  by_cases h : e = ENOENT <;> simp [load, h]

/-- C8: construction succeeds exactly when one of `filename`/`parent` is
given (both absent or both present raise `ValueError`), and every
successfully constructed node satisfies the exactly-one-of invariant. -/
theorem init_exactly_one (f : Option String) (p : Option Unit) (d : Option JSONVal)
    (w : Bool) :
    ((init f p d w).isOk = true ↔ ((f.isSome ∧ p.isNone) ∨ (f.isNone ∧ p.isSome)))
    ∧ (∀ n b, init f p d w = .ok (n, b) →
        ((n.filename.isSome ∧ n.parent.isNone)
          ∨ (n.filename.isNone ∧ n.parent.isSome))) := by
  cases f <;> cases p <;>
    simp [init, Except.isOk, Except.toBool]

/-- Witness for C8: a node bound to a filename alone is legal and satisfies
the invariant; the theorem applied at both-absent shows the failure. -/
theorem init_exactly_one_witness :
    ((init (some "/a/b") none none false).isOk = true)
    ∧ ((init (none : Option String) none none false).isOk = true → False) := by
  have h1 := init_exactly_one (some "/a/b") none none false
  have h2 := init_exactly_one (none : Option String) none none false
  refine ⟨h1.1.mpr (Or.inl (by decide)), fun hh => ?_⟩
  rcases h2.1.mp hh with h | h <;> simp at h

/-- C9: a node constructed with initial data calls `sync()` during
construction; a node constructed without initial data does not. -/
theorem init_syncs_iff_initial_data (f : Option String) (p : Option Unit)
    (d : Option JSONVal) (w : Bool) (n : Node) (b : Bool)
    (h : init f p d w = .ok (n, b)) : b = d.isSome := by
  rw [init] at h
  split at h
  · cases h
  · rw [Except.ok.injEq] at h
    exact (congrArg Prod.snd h).symm

/-- Witness for C9: with initial data the construction-time sync flag is
set; the same theorem at `data = none` gives the flag unset. -/
theorem init_syncs_iff_initial_data_witness :
    (true : Bool) = (some JSONVal.null).isSome
    ∧ (false : Bool) = (none : Option JSONVal).isSome :=
  ⟨init_syncs_iff_initial_data (some "/a/b") none (some .null) true
      ⟨some "/a/b", none, true, some .null⟩ true rfl,
    init_syncs_iff_initial_data (some "/a/b") none none true
      ⟨some "/a/b", none, true, none⟩ false rfl⟩

end JSONCollection

namespace SyncedCollection

theorem accessChild_self (r : RootCache) (p : String) :
    alookup (accessChild r p).2.cache p = some (accessChild r p).1 := by
  rw [accessChild]
  cases h : alookup r.cache p with
  | some i => simpa using h
  | none => simp [alookup_aset]

theorem accessChild_preserves (r : RootCache) (p q : String) (i : Nat)
    (h : alookup r.cache q = some i) :
    alookup (accessChild r p).2.cache q = some i := by
  rw [accessChild]
  cases hp : alookup r.cache p with
  | some j => simpa using h
  | none =>
    simp only [alookup_aset]
    split
    · next heq => rw [heq] at h; rw [h] at hp; cases hp
    · exact h

theorem applyNodeOps_preserves (ops : List NodeOp) (r : RootCache) (q : String) (i : Nat)
    (hops : NodeOp.reload ∉ ops) (h : alookup r.cache q = some i) :
    alookup (applyNodeOps r ops).cache q = some i := by
  induction ops generalizing r with
  | nil => exact h
  | cons op rest ih =>
    have hop : op ≠ .reload := fun hh => hops (by rw [hh]; exact List.mem_cons_self _ _)
    have hrest : NodeOp.reload ∉ rest := fun hh => hops (List.mem_cons_of_mem _ hh)
    cases op with
    | reload => exact absurd rfl hop
    | access p =>
      exact ih _ hrest (accessChild_preserves r p q i h)

/-- C5: two reads of the same nested path on the same root — with any
number of other accesses but no reload in between — return the identical
node instance; reloading the root invalidates the whole per-root child
cache. -/
theorem nested_access_identity (r : RootCache) (p : String) (ops : List NodeOp)
    (hops : NodeOp.reload ∉ ops) :
    (accessChild (applyNodeOps (accessChild r p).2 ops) p).1 = (accessChild r p).1
    ∧ (reloadRoot r).cache = [] := by
  refine ⟨?_, rfl⟩
  have h1 := accessChild_self r p
  have h2 := applyNodeOps_preserves ops (accessChild r p).2 p (accessChild r p).1 hops h1
  rw [accessChild, h2]

/-- Witness for C5: a fresh root, path `a` read twice around an access to
`b`, returns the same instance id both times. -/
theorem nested_access_identity_witness :
    (accessChild (applyNodeOps (accessChild ⟨[], 0⟩ "a").2 [.access "b"]) "a").1
      = (accessChild (⟨[], 0⟩ : RootCache) "a").1
    ∧ (reloadRoot ⟨[("a", 0)], 1⟩).cache = [] :=
  ⟨(nested_access_identity ⟨[], 0⟩ "a" [.access "b"] (by decide)).1,
    (nested_access_identity ⟨[("a", 0)], 1⟩ "a" [] (by decide)).2⟩

end SyncedCollection

namespace Collection

theorem mem_idsFor_indexAdd (idx : List (JSONVal × List String)) (v : JSONVal)
    (id' : String) (w : JSONVal) (id : String) :
    id ∈ idsFor (indexAdd idx v id') w ↔ id ∈ idsFor idx w ∨ (id = id' ∧ w = v) := by
  induction idx with
  | nil =>
    by_cases hvw : v = w
    · subst hvw
      simp [indexAdd, idsFor]
    · simp [indexAdd, idsFor, if_neg hvw, Ne.symm hvw]
  | cons uv rest ih =>
    obtain ⟨u, ids⟩ := uv
    by_cases huv : u = v
    · subst huv
      by_cases huw : u = w
      · subst huw
        simp [indexAdd, idsFor]
      · simp [indexAdd, idsFor, if_neg huw, Ne.symm huw]
    · by_cases huw : u = w
      · subst huw
        simp only [indexAdd, if_neg huv, idsFor, if_pos rfl]
        have hne : ¬ (u = v) := huv
        tauto
      · simp only [indexAdd, if_neg huv, idsFor, if_neg huw]
        exact ih

theorem mem_idsFor_buildIndexFrom (f : String) (docs : List (String × DocBody))
    (idx : List (JSONVal × List String)) (v : JSONVal) (id : String) :
    id ∈ idsFor (buildIndexFrom f idx docs) v ↔
      id ∈ idsFor idx v
      ∨ ∃ body, (id, body) ∈ docs
          ∧ resolvePath (.obj body) (splitDotted f) = some v := by
  induction docs generalizing idx with
  | nil => simp [buildIndexFrom]
  | cons d rest ih =>
    obtain ⟨i, body⟩ := d
    cases hres : resolvePath (.obj body) (splitDotted f) with
    | some w =>
      rw [buildIndexFrom, hres, ih, mem_idsFor_indexAdd]
      constructor
      · rintro ((h | ⟨rfl, rfl⟩) | ⟨b, hb, hr⟩)
        · exact Or.inl h
        · exact Or.inr ⟨body, List.mem_cons_self _ _, hres⟩
        · exact Or.inr ⟨b, List.mem_cons_of_mem _ hb, hr⟩
      · rintro (h | ⟨b, hb, hr⟩)
        · exact Or.inl (Or.inl h)
        · rcases List.mem_cons.mp hb with hb1 | hb2
          · rw [Prod.mk.injEq] at hb1
            obtain ⟨rfl, rfl⟩ := hb1
            rw [hres] at hr
            exact Or.inl (Or.inr ⟨rfl, (Option.some.injEq _ _ ▸ hr).symm ▸ rfl⟩)
          · exact Or.inr ⟨b, hb2, hr⟩
    | none =>
      rw [buildIndexFrom, hres, ih]
      constructor
      · rintro (h | ⟨b, hb, hr⟩)
        · exact Or.inl h
        · exact Or.inr ⟨b, List.mem_cons_of_mem _ hb, hr⟩
      · rintro (h | ⟨b, hb, hr⟩)
        · exact Or.inl h
        · rcases List.mem_cons.mp hb with hb1 | hb2
          · rw [Prod.mk.injEq] at hb1
            obtain ⟨rfl, rfl⟩ := hb1
            rw [hres] at hr
            cases hr
          · exact Or.inr ⟨b, hb2, hr⟩

theorem mem_idsFor_buildIndex (f : String) (docs : List (String × DocBody))
    (v : JSONVal) (id : String) :
    id ∈ idsFor (buildIndex f docs) v ↔
      ∃ body, (id, body) ∈ docs
        ∧ resolvePath (.obj body) (splitDotted f) = some v := by
  rw [buildIndex, mem_idsFor_buildIndexFrom]
  simp [idsFor]

/-- C4: after `index(f, build=True)` the returned index maps every value
`v` to exactly the ids of documents whose field `f` resolves — by the same
dotted-path rules `find` uses — to `v`; and after any insert, delete or
replace mutation, requesting `index(f)` without `build=True` fails with
`MissingKey` until a rebuild (which again succeeds and revalidates). -/
theorem index_build_correct_and_mutation_invalidates (c : Store) (f : String)
    (hwf : ∀ g idx, alookup c.indexes g = some idx → idx = buildIndex g c.docs) :
    (∀ idx c1, index c f true = .ok (idx, c1) →
      ∀ v id, id ∈ idsFor idx v ↔
        ∃ body, (id, body) ∈ c.docs
          ∧ resolvePath (.obj body) (splitDotted f) = some v)
    ∧ (∀ m c', applyMutation c m = some c' →
        index c' f false = .error .missingKey
        ∧ index c' f true
            = .ok (buildIndex f c'.docs,
                ⟨c'.docs, aset c'.indexes f (buildIndex f c'.docs)⟩)) := by
  constructor
  · intro idx c1 hidx v id
    rw [index] at hidx
    cases hs : alookup c.indexes f with
    | some idx0 =>
      rw [hs] at hidx
      have h1 : idx = idx0 := by
        rw [Except.ok.injEq] at hidx
        exact (congrArg Prod.fst hidx).symm
      rw [h1, hwf f idx0 hs]
      exact mem_idsFor_buildIndex f c.docs v id
    | none =>
      rw [hs] at hidx
      simp only [if_true] at hidx
      have h1 : idx = buildIndex f c.docs := by
        rw [Except.ok.injEq] at hidx
        exact (congrArg Prod.fst hidx).symm
      rw [h1]
      exact mem_idsFor_buildIndex f c.docs v id
  · intro m c' hm
    have hempty : c'.indexes = [] := by
      cases m with
      | ins id body =>
        rw [applyMutation] at hm
        split at hm
        · cases hm
        · rw [Option.some.injEq] at hm
          rw [← hm]
      | del filter =>
        rw [applyMutation] at hm
        split at hm <;>
          (rw [Option.some.injEq] at hm; rw [← hm])
      | repl filter body =>
        rw [applyMutation] at hm
        split at hm <;>
          (rw [Option.some.injEq] at hm; rw [← hm])
    have hnone : alookup c'.indexes f = none := by rw [hempty]; rfl
    refine ⟨?_, ?_⟩
    · rw [index, hnone]
      simp
    · rw [index, hnone]
      simp

/-- Witness for C4: build the index for `a` over one document, observe the
id in its group; delete-mutate; the request without `build` fails and the
rebuild succeeds. -/
theorem index_build_correct_and_mutation_invalidates_witness :
    ("0" ∈ idsFor (buildIndex "a" [("0", [("a", JSONVal.num 1)])]) (.num 1))
    ∧ (index (⟨[("0", [("a", JSONVal.num 1)]), ("1", [])], []⟩ : Store) "a" false
        = .error .missingKey) := by
  have h := index_build_correct_and_mutation_invalidates
    ⟨[("0", [("a", JSONVal.num 1)])], []⟩ "a"
    (fun g idx hh => by cases hh)
  constructor
  · exact (h.1 (buildIndex "a" [("0", [("a", JSONVal.num 1)])])
      ⟨[("0", [("a", JSONVal.num 1)])],
        aset [] "a" (buildIndex "a" [("0", [("a", JSONVal.num 1)])])⟩ rfl
      (.num 1) "0").mpr ⟨[("a", JSONVal.num 1)], by decide, by decide⟩
  · exact (h.2 (.ins "1" []) ⟨[("0", [("a", JSONVal.num 1)]), ("1", [])], []⟩
      (by decide)).1

/-- C6: a dotted-path filter key and the equivalent nested-mapping filter
key produce identical `find` result sets, for every store and value. -/
theorem find_dotted_eq_find_nested (c : Store) (v : JSONVal) :
    find c [("a.b", v)] = find c [("a", .obj [("b", v)])] := by
  have hsplit : splitDotted "a.b" = ["a", "b"] := by decide
  have hsplit2 : splitDotted "a" = ["a"] := by decide
  have hsplit3 : splitDotted "b" = ["b"] := by decide
  have hflat : flattenFields [] [("a.b", v)] = flattenFields [] [("a", .obj [("b", v)])] := by
    cases v <;>
      simp [flattenFields, flattenKV, hsplit, hsplit2, hsplit3]
  have hmatch : ∀ doc : JSONVal,
      matchesFilter doc [("a.b", v)] = matchesFilter doc [("a", .obj [("b", v)])] := by
    intro doc
    rw [matchesFilter, matchesFilter, hflat]
  rw [find, find]
  exact List.filter_congr fun d _ => by rw [hmatch]

/-- C7: on a read-mode handle, inserting mutates only the in-memory record
set and succeeds; any query after that unpersisted mutation fails with
`NotReady`; and `flush`/`close` fail with `DisallowedOperation` — the
persisted file is never touched. -/
theorem read_mode_mutation_asymmetry (h : FileHandle) (id : String) (body : DocBody)
    (hmode : h.mode = .read) (hfresh : alookup h.store.docs id = none) :
    ∃ h', hInsertOne h id body = .ok h'
      ∧ h'.store.docs = h.store.docs ++ [(id, body)]
      ∧ h'.persisted = h.persisted
      ∧ (∀ filter, hFind h' filter = .error .notReady)
      ∧ hFlush h' = .error .disallowedOperation
      ∧ hClose h' = .error .disallowedOperation := by
  refine ⟨⟨h.mode, ⟨h.store.docs ++ [(id, body)], []⟩, true, h.persisted⟩, ?_, rfl, rfl,
    ?_, ?_, ?_⟩
  · rw [hInsertOne, hfresh]
    rfl
  · intro filter
    rw [hFind, if_pos ⟨hmode, rfl⟩]
  · rw [hFlush, if_pos hmode]
  · rw [hClose, if_pos hmode]

/-- Witness for C7 on a concrete read-mode handle over a one-document
file. -/
theorem read_mode_mutation_asymmetry_witness :
    ∃ h', hInsertOne ⟨.read, ⟨[("0", [])], []⟩, false, [("0", [])]⟩ "1" [] = .ok h'
      ∧ h'.store.docs = [("0", [])] ++ [("1", [])]
      ∧ h'.persisted = [("0", [])]
      ∧ (∀ filter, hFind h' filter = .error .notReady)
      ∧ hFlush h' = .error .disallowedOperation
      ∧ hClose h' = .error .disallowedOperation :=
  read_mode_mutation_asymmetry ⟨.read, ⟨[("0", [])], []⟩, false, [("0", [])]⟩ "1" []
    rfl (by decide)

end Collection

end Signac
